import Mathlib

/-!
Shallow embedding of the Arduino Tic-Tac-Toe sketch
(`src/TicTacToe/TicTacToe.ino`).

The sketch's global variables (`board`, `currentPlayer`, `gameOver`,
`gameMode`) become the fields of `GameState`.  The Arduino `random(0, 3)`
calls are modelled by an oracle stream `rng : Nat → Fin 3 × Fin 3`
together with a cursor index; each iteration of the retry loop in
`aiMoveRandom` consumes one `(row, col)` pair from the stream.  The two
`while` loops of the sketch (`aiMoveRandom`, `handleAiVsAi`) are given
explicit fuel and return `none` when the fuel runs out, so that
(non-)termination is expressible.  Serial output becomes a list of `Msg`
values, one per `sendJsonMessage` / `sendBoardState` call, in emission
order.
-/

/-- A cell of the board: `' '`, `'X'` or `'O'` in the sketch. -/
inductive Cell
  | Empty
  | X
  | O
deriving DecidableEq, Repr

/-- `char board[3][3]`, as a total function on indices. -/
abbrev Board := Fin 3 → Fin 3 → Cell

instance : DecidableEq Board := fun a b =>
  decidable_of_iff (∀ i j, a i j = b i j)
    ⟨fun h => funext fun i => funext fun j => h i j, fun h i j => by rw [h]⟩

/-- Writing one cell of the board (`board[r][c] = v`). -/
def setCell (b : Board) (r c : Fin 3) (v : Cell) : Board :=
  fun i j => if i = r ∧ j = c then v else b i j

/-- Conversion of an `int` index into a board index; only applied under
the range guard `0 <= x < 3`, where it is the identity. -/
def idx (x : Int) : Fin 3 :=
  ⟨x.toNat % 3, Nat.mod_lt _ (by decide)⟩

/-- The sketch's global state: `board`, `currentPlayer`, `gameOver`,
`gameMode`. -/
structure GameState where
  board : Board
  currentPlayer : Cell
  gameOver : Bool
  gameMode : Int

theorem GameState.eq_iff (a b : GameState) :
    a = b ↔ (a.board = b.board ∧ a.currentPlayer = b.currentPlayer
      ∧ a.gameOver = b.gameOver ∧ a.gameMode = b.gameMode) := by
  constructor
  · intro h; rw [h]; exact ⟨rfl, rfl, rfl, rfl⟩
  · rintro ⟨h1, h2, h3, h4⟩; cases a; cases b; simp_all

instance : DecidableEq GameState := fun a b =>
  decidable_of_iff _ (GameState.eq_iff a b).symm

/-- One JSON message written to the serial port, tagged by its `type`
field (`sendJsonMessage` / `sendBoardState`). -/
inductive Msg
  | winStatus (m : String)
  | boardState (b : Board)
  | errorMsg (m : String)
  | gameStatus (m : String)
  | gameModeSet (m : String)
  | infoMsg (m : String)
deriving DecidableEq

/-- A parsed inbound command (the three branches of `loop`). -/
inductive Command
  | move (row col : Int)
  | reset
  | mode (m : Int)
deriving DecidableEq

/-- `String(currentPlayer)` for the three possible cell characters. -/
def playerStr : Cell → String
  | Cell.X => "X"
  | Cell.O => "O"
  | Cell.Empty => " "

/-- The `"Player … wins!"` message built in `makeMove`, `handleAiVsAi`
and `loop`. -/
def winMsg (p : Cell) : String :=
  "Player " ++ playerStr p ++ " wins!"

/-- The draw message, `"It\x27s a draw!"`. -/
def drawMsg : String := "It\x27s a draw!"

/-- `initializeBoard()`: clears every cell, sets `currentPlayer = 'X'`
and `gameOver = false`; `gameMode` is untouched. -/
def initializeBoard (s : GameState) : GameState :=
  { s with board := fun _ _ => Cell.Empty
         , currentPlayer := Cell.X
         , gameOver := false }

/-- `checkWin()` with the player made explicit (the sketch reads the
global `currentPlayer`).  The loop over `i = 0, 1, 2` with early
`return true` is unrolled into a disjunction, rows and columns
interleaved exactly as the loop visits them, diagonals last. -/
def checkWin (b : Board) (p : Cell) : Bool :=
  (b 0 0 == p && b 0 1 == p && b 0 2 == p)
  || (b 0 0 == p && b 1 0 == p && b 2 0 == p)
  || (b 1 0 == p && b 1 1 == p && b 1 2 == p)
  || (b 0 1 == p && b 1 1 == p && b 2 1 == p)
  || (b 2 0 == p && b 2 1 == p && b 2 2 == p)
  || (b 0 2 == p && b 1 2 == p && b 2 2 == p)
  || (b 0 0 == p && b 1 1 == p && b 2 2 == p)
  || (b 0 2 == p && b 1 1 == p && b 2 0 == p)

/-- `checkDraw()`: the double loop returns `false` at the first empty
cell, i.e. it is true iff every cell is non-empty.  Unrolled in the
loop's visiting order. -/
def checkDraw (b : Board) : Bool :=
  !(b 0 0 == Cell.Empty) && !(b 0 1 == Cell.Empty) && !(b 0 2 == Cell.Empty)
  && !(b 1 0 == Cell.Empty) && !(b 1 1 == Cell.Empty) && !(b 1 2 == Cell.Empty)
  && !(b 2 0 == Cell.Empty) && !(b 2 1 == Cell.Empty) && !(b 2 2 == Cell.Empty)

/-- `(currentPlayer == 'X') ? 'O' : 'X'`. -/
def otherPlayer (p : Cell) : Cell :=
  if p == Cell.X then Cell.O else Cell.X

/-- `aiMoveRandom()`: `while (true)` draw a random cell; if it is empty,
write the player there and stop.  `i` is the cursor into the random
stream; `fuel` bounds the number of iterations, `none` meaning the loop
did not finish within `fuel` draws.  On success, returns the new board
and the new cursor. -/
def aiMoveRandom (b : Board) (p : Cell) (rng : Nat → Fin 3 × Fin 3) :
    Nat → Nat → Option (Board × Nat)
  | _, 0 => none
  | i, fuel + 1 =>
    let rc := rng i
    if b rc.1 rc.2 = Cell.Empty then
      some (setCell b rc.1 rc.2 p, i + 1)
    else
      aiMoveRandom b p rng (i + 1) fuel

/-- `handleAiVsAi()`: `while (!gameOver)` check draw, otherwise make a
random move, check win, otherwise switch players and send the board.
`innerFuel` is the per-`aiMoveRandom` fuel, the last `Nat` argument the
outer-loop fuel.  Returns the final state, the emitted messages in
order, and the final stream cursor. -/
def handleAiVsAi (rng : Nat → Fin 3 × Fin 3) (innerFuel : Nat) :
    GameState → Nat → Nat → Option (GameState × List Msg × Nat)
  | s, i, 0 => if s.gameOver then some (s, [], i) else none
  | s, i, fuel + 1 =>
    if s.gameOver then
      some (s, [], i)
    else if checkDraw s.board then
      some ({ s with gameOver := true }, [Msg.winStatus drawMsg], i)
    else
      match aiMoveRandom s.board s.currentPlayer rng i innerFuel with
      | none => none
      | some (b2, i2) =>
        if checkWin b2 s.currentPlayer then
          some ({ s with board := b2, gameOver := true },
                [Msg.boardState b2, Msg.winStatus (winMsg s.currentPlayer)],
                i2)
        else
          match handleAiVsAi rng innerFuel
              { s with board := b2,
                       currentPlayer := otherPlayer s.currentPlayer }
              i2 fuel with
          | none => none
          | some (s2, ms2, i3) => some (s2, Msg.boardState b2 :: ms2, i3)

/-- The success guard of `makeMove`, exactly the `if` condition of the
sketch: indices in range, target cell empty, game not over. -/
def MoveValid (s : GameState) (row col : Int) : Prop :=
  0 ≤ row ∧ row < 3 ∧ 0 ≤ col ∧ col < 3
    ∧ s.board (idx row) (idx col) = Cell.Empty ∧ s.gameOver = false

instance (s : GameState) (row col : Int) : Decidable (MoveValid s row col) :=
  inferInstanceAs (Decidable (0 ≤ row ∧ row < 3 ∧ 0 ≤ col ∧ col < 3
    ∧ s.board (idx row) (idx col) = Cell.Empty ∧ s.gameOver = false))

/-- `makeMove(row, col)`: on a valid move, write the current player,
then check win, then draw, else switch players; returns the new state,
the `bool` result and the messages `makeMove` itself emitted. -/
def makeMove (s : GameState) (row col : Int) : GameState × Bool × List Msg :=
  if MoveValid s row col then
    let b := setCell s.board (idx row) (idx col) s.currentPlayer
    if checkWin b s.currentPlayer then
      ({ s with board := b, gameOver := true }, true,
       [Msg.winStatus (winMsg s.currentPlayer)])
    else if checkDraw b then
      ({ s with board := b, gameOver := true }, true,
       [Msg.winStatus drawMsg])
    else
      ({ s with board := b, currentPlayer := otherPlayer s.currentPlayer },
       true, [])
  else
    (s, false, [])

/-- The command-dispatch `if`/`else if` chain of `loop` (lines 186-205):
state change plus the messages emitted by the branch, in order. -/
def dispatchCommand (s : GameState) : Command → GameState × List Msg
  | Command.move row col =>
    let r := makeMove s row col
    if r.2.1 then
      (r.1, r.2.2 ++ [Msg.boardState r.1.board])
    else
      (r.1, r.2.2 ++ [Msg.errorMsg ("Invalid move.")])
  | Command.reset =>
    let s1 := initializeBoard s
    (s1, [Msg.gameStatus ("Game reset."), Msg.boardState s1.board])
  | Command.mode m =>
    let s1 := initializeBoard { s with gameMode := m }
    (s1, [Msg.gameModeSet ("Game mode set to " ++ toString m),
          Msg.gameStatus ("Game reset."), Msg.boardState s1.board])

/-- The AI-trigger block at the end of `loop` (lines 207-222), run after
every successfully parsed command: in mode 1 with `'O'` to move and the
game not over, one random AI move, win then draw check, `currentPlayer`
forced back to `'X'`, board sent; in mode 2 with the game not over,
`handleAiVsAi`; otherwise nothing. -/
def afterCommand (rng : Nat → Fin 3 × Fin 3) (innerFuel outerFuel : Nat)
    (s : GameState) (i : Nat) (ms : List Msg) :
    Option (GameState × List Msg × Nat) :=
  if s.gameMode = 1 ∧ s.gameOver = false ∧ s.currentPlayer = Cell.O then
    match aiMoveRandom s.board s.currentPlayer rng i innerFuel with
    | none => none
    | some (b2, i2) =>
      if checkWin b2 s.currentPlayer then
        some ({ s with board := b2, gameOver := true, currentPlayer := Cell.X },
              ms ++ [Msg.winStatus (winMsg s.currentPlayer), Msg.boardState b2],
              i2)
      else if checkDraw b2 then
        some ({ s with board := b2, gameOver := true, currentPlayer := Cell.X },
              ms ++ [Msg.winStatus drawMsg, Msg.boardState b2], i2)
      else
        some ({ s with board := b2, currentPlayer := Cell.X },
              ms ++ [Msg.boardState b2], i2)
  else if s.gameMode = 2 ∧ s.gameOver = false then
    match handleAiVsAi rng innerFuel s i outerFuel with
    | none => none
    | some (s2, ms2, i2) => some (s2, ms ++ ms2, i2)
  else
    some (s, ms, i)

/-- One full pass of `loop` over an already-parsed command: dispatch,
then the AI-trigger block. -/
def processCommand (rng : Nat → Fin 3 × Fin 3) (innerFuel outerFuel : Nat)
    (s : GameState) (i : Nat) (c : Command) :
    Option (GameState × List Msg × Nat) :=
  let r := dispatchCommand s c
  afterCommand rng innerFuel outerFuel r.1 i r.2

/-- A JSON scalar value as far as the sketch looks at one. -/
inductive JVal
  | jint (n : Int)
  | jstr (v : String)
  | jnull
deriving DecidableEq

/-- `int row = doc["row"];` — ArduinoJson's integer extraction yields
`0` when the field is absent, null, or holds no integer value. -/
def getInt (doc : List (String × JVal)) (k : String) : Int :=
  match doc.lookup k with
  | some (JVal.jint n) => n
  | _ => 0

/-- The command parsing of `loop`: read `doc["command"]` and the
integer payload fields of the recognised commands.  Unrecognised or
absent command strings yield `none`. -/
def parseCommand (doc : List (String × JVal)) : Option Command :=
  match doc.lookup ("command") with
  | some (JVal.jstr c) =>
    if c = "MOVE" then some (Command.move (getInt doc ("row")) (getInt doc ("col")))
    else if c = "RESET" then some Command.reset
    else if c = "MODE" then some (Command.mode (getInt doc ("mode")))
    else none
  | _ => none

/-- The state right after `setup()`: empty board, `'X'` to move, game
not over, mode `0`. -/
def initialState : GameState :=
  { board := fun _ _ => Cell.Empty
  , currentPlayer := Cell.X
  , gameOver := false
  , gameMode := 0 }

/-! ## Specification-side definitions -/

/-- The eight winning lines of the spec: 3 rows, 3 columns, 2
diagonals. -/
def winLines : List (List (Fin 3 × Fin 3)) :=
  [ [(0, 0), (0, 1), (0, 2)]
  , [(1, 0), (1, 1), (1, 2)]
  , [(2, 0), (2, 1), (2, 2)]
  , [(0, 0), (1, 0), (2, 0)]
  , [(0, 1), (1, 1), (2, 1)]
  , [(0, 2), (1, 2), (2, 2)]
  , [(0, 0), (1, 1), (2, 2)]
  , [(0, 2), (1, 1), (2, 0)] ]

/-- The spec's notion of a win: some winning line fully occupied by the
player. -/
def WinsSpec (b : Board) (p : Cell) : Prop :=
  ∃ l ∈ winLines, ∀ rc ∈ l, b rc.1 rc.2 = p

/-- A random stream is `N`-fair when every window of `N` consecutive
draws proposes every cell at least once.  The cyclic sweep below shows
such streams exist; a genuine uniform random source is fair with
probability one. -/
def WindowFair (rng : Nat → Fin 3 × Fin 3) (N : Nat) : Prop :=
  ∀ (i : Nat) (rc : Fin 3 × Fin 3), ∃ j, i ≤ j ∧ j < i + N ∧ rng j = rc

/-- The deterministic stream that sweeps the nine cells cyclically. -/
def rngSweep (n : Nat) : Fin 3 × Fin 3 :=
  (⟨n / 3 % 3, Nat.mod_lt _ (by decide)⟩, ⟨n % 3, Nat.mod_lt _ (by decide)⟩)

/-- The set of empty cells of a board. -/
def emptyCells (b : Board) : Finset (Fin 3 × Fin 3) :=
  Finset.univ.filter (fun rc => b rc.1 rc.2 = Cell.Empty)

/-- The nine cells in row-major order. -/
def cellsList : List (Fin 3 × Fin 3) :=
  [(0, 0), (0, 1), (0, 2), (1, 0), (1, 1), (1, 2), (2, 0), (2, 1), (2, 2)]

/-- How many cells of the board hold the given value. -/
def countCell (b : Board) (v : Cell) : Nat :=
  (cellsList.filter (fun rc => b rc.1 rc.2 == v)).length

/-! ## Helper lemmas -/

theorem checkDraw_iff (b : Board) :
    checkDraw b = true ↔ ∀ i j, b i j ≠ Cell.Empty := by
  unfold checkDraw
  simp only [Bool.and_eq_true, Bool.not_eq_true', beq_eq_false_iff_ne]
  constructor
  · rintro ⟨⟨⟨⟨⟨⟨⟨⟨h00, h01⟩, h02⟩, h10⟩, h11⟩, h12⟩, h20⟩, h21⟩, h22⟩ i j
    fin_cases i <;> fin_cases j <;> simp_all
  · intro h
    exact ⟨⟨⟨⟨⟨⟨⟨⟨h 0 0, h 0 1⟩, h 0 2⟩, h 1 0⟩, h 1 1⟩, h 1 2⟩, h 2 0⟩, h 2 1⟩, h 2 2⟩

theorem checkDraw_false_exists (b : Board) (h : checkDraw b = false) :
    ∃ r c, b r c = Cell.Empty := by
  by_contra hc
  push_neg at hc
  have : checkDraw b = true := (checkDraw_iff b).mpr hc
  rw [this] at h
  cases h

theorem otherPlayer_ne_empty (p : Cell) : otherPlayer p ≠ Cell.Empty := by
  cases p <;> simp [otherPlayer]

theorem otherPlayer_mem (p : Cell) :
    otherPlayer p = Cell.X ∨ otherPlayer p = Cell.O := by
  cases p <;> simp [otherPlayer]

theorem setCell_keeps (b : Board) (r0 c0 : Fin 3) (v : Cell) (r c : Fin 3)
    (h0 : b r0 c0 = Cell.Empty) (h : b r c ≠ Cell.Empty) :
    setCell b r0 c0 v r c = b r c := by
  unfold setCell
  split
  · next heq => exact absurd (heq.1 ▸ heq.2 ▸ h0) h
  · rfl

theorem aiMoveRandom_some (b : Board) (p : Cell) (rng : Nat → Fin 3 × Fin 3) :
    ∀ fuel i b2 i2, aiMoveRandom b p rng i fuel = some (b2, i2) →
      ∃ r c, b r c = Cell.Empty ∧ b2 = setCell b r c p := by
  intro fuel
  induction fuel with
  | zero => intro i b2 i2 h; exact absurd h (by simp [aiMoveRandom])
  | succ n ih =>
    intro i b2 i2 h
    unfold aiMoveRandom at h
    by_cases hc : b (rng i).1 (rng i).2 = Cell.Empty
    · rw [if_pos hc] at h
      have hb := congrArg Prod.fst (Option.some_inj.mp h)
      exact ⟨(rng i).1, (rng i).2, hc, hb.symm⟩
    · rw [if_neg hc] at h
      exact ih (i + 1) b2 i2 h

theorem aiMoveRandom_isSome (b : Board) (p : Cell) (rng : Nat → Fin 3 × Fin 3) :
    ∀ fuel i, (∃ j, i ≤ j ∧ j < i + fuel ∧ b (rng j).1 (rng j).2 = Cell.Empty) →
      (aiMoveRandom b p rng i fuel).isSome := by
  intro fuel
  induction fuel with
  | zero => rintro i ⟨j, hij, hj, _⟩; omega
  | succ n ih =>
    rintro i ⟨j, hij, hj, hempty⟩
    unfold aiMoveRandom
    by_cases hc : b (rng i).1 (rng i).2 = Cell.Empty
    · rw [if_pos hc]; rfl
    · rw [if_neg hc]
      refine ih (i + 1) ⟨j, ?_, by omega, hempty⟩
      rcases Nat.eq_or_lt_of_le hij with heq | hlt
      · exact absurd (heq ▸ hempty) hc
      · omega

theorem aiMoveRandom_isSome_of_fair (b : Board) (p : Cell)
    (rng : Nat → Fin 3 × Fin 3) (N : Nat) (hfair : WindowFair rng N)
    (i : Nat) (hb : ∃ r c, b r c = Cell.Empty) :
    (aiMoveRandom b p rng i N).isSome := by
  obtain ⟨r, c, hrc⟩ := hb
  obtain ⟨j, hij, hj, hrng⟩ := hfair i (r, c)
  exact aiMoveRandom_isSome b p rng N i ⟨j, hij, hj, by rw [hrng]; exact hrc⟩

theorem emptyCells_setCell (b : Board) (r c : Fin 3) (v : Cell)
    (hv : v ≠ Cell.Empty) :
    emptyCells (setCell b r c v) = (emptyCells b).erase (r, c) := by
  ext rc
  simp only [emptyCells, setCell, Finset.mem_filter, Finset.mem_erase,
    Finset.mem_univ, true_and]
  constructor
  · intro h
    split at h
    · exact absurd h hv
    · next hne =>
      refine ⟨fun hrc => hne ?_, h⟩
      cases rc
      cases hrc
      exact ⟨rfl, rfl⟩
  · rintro ⟨hne, h⟩
    split
    · next heq =>
      exact absurd (by cases rc; cases heq.1; cases heq.2; rfl) hne
    · exact h

theorem emptyCells_card_setCell (b : Board) (r c : Fin 3) (v : Cell)
    (hv : v ≠ Cell.Empty) (hrc : b r c = Cell.Empty) :
    (emptyCells (setCell b r c v)).card = (emptyCells b).card - 1 := by
  rw [emptyCells_setCell b r c v hv]
  exact Finset.card_erase_of_mem
    (by simp [emptyCells, Finset.mem_filter, hrc])

theorem emptyCells_pos (b : Board) (r c : Fin 3) (hrc : b r c = Cell.Empty) :
    0 < (emptyCells b).card :=
  Finset.card_pos.mpr ⟨(r, c), by simp [emptyCells, Finset.mem_filter, hrc]⟩

theorem handleAiVsAi_exit (rng : Nat → Fin 3 × Fin 3) (fIn : Nat) :
    ∀ fOut s i s2 ms2 i2,
      s.gameOver = false →
      (s.currentPlayer = Cell.X ∨ s.currentPlayer = Cell.O) →
      handleAiVsAi rng fIn s i fOut = some (s2, ms2, i2) →
      s2.gameOver = true ∧
        ∃ m, ms2.getLast? = some (Msg.winStatus m) ∧
          (m = drawMsg ∨ m = winMsg Cell.X ∨ m = winMsg Cell.O) := by
  intro fOut
  induction fOut with
  | zero =>
    intro s i s2 ms2 i2 hg _ h
    rw [handleAiVsAi, if_neg (by rw [hg]; exact fun hc => nomatch hc)] at h
    exact absurd h (by exact fun hc => nomatch hc)
  | succ n ih =>
    intro s i s2 ms2 i2 hg hp h
    rw [handleAiVsAi, if_neg (by rw [hg]; exact fun hc => nomatch hc)] at h
    by_cases hd : checkDraw s.board = true
    · rw [if_pos hd] at h
      simp only [Option.some.injEq, Prod.mk.injEq] at h
      obtain ⟨rfl, rfl, rfl⟩ := h
      exact ⟨rfl, drawMsg, by simp [List.getLast?], Or.inl rfl⟩
    · rw [if_neg hd] at h
      cases haim : aiMoveRandom s.board s.currentPlayer rng i fIn with
      | none => rw [haim] at h; exact absurd h (fun hc => nomatch hc)
      | some p2 =>
        obtain ⟨b2, i2'⟩ := p2
        rw [haim] at h
        dsimp only at h
        by_cases hw : checkWin b2 s.currentPlayer = true
        · rw [if_pos hw] at h
          simp only [Option.some.injEq, Prod.mk.injEq] at h
          obtain ⟨rfl, rfl, rfl⟩ := h
          refine ⟨rfl, winMsg s.currentPlayer, by simp [List.getLast?], ?_⟩
          rcases hp with hp | hp <;> rw [hp]
          · exact Or.inr (Or.inl rfl)
          · exact Or.inr (Or.inr rfl)
        · rw [if_neg hw] at h
          cases hrec : handleAiVsAi rng fIn
              { s with board := b2,
                       currentPlayer := otherPlayer s.currentPlayer } i2' n with
          | none => rw [hrec] at h; exact absurd h (fun hc => nomatch hc)
          | some p3 =>
            obtain ⟨s3, ms3, i3⟩ := p3
            rw [hrec] at h
            dsimp only at h
            simp only [Option.some.injEq, Prod.mk.injEq] at h
            obtain ⟨rfl, rfl, rfl⟩ := h
            obtain ⟨hover, m, hlast, hm⟩ :=
              ih { s with board := b2,
                          currentPlayer := otherPlayer s.currentPlayer }
                i2' s3 ms3 i3 hg (otherPlayer_mem s.currentPlayer) hrec
            refine ⟨hover, m, ?_, hm⟩
            exact Option.mem_def.mp
              (List.mem_getLast?_cons (Option.mem_def.mpr hlast))

theorem handleAiVsAi_isSome (rng : Nat → Fin 3 × Fin 3) (N : Nat)
    (hfair : WindowFair rng N) :
    ∀ fOut s i, s.currentPlayer ≠ Cell.Empty →
      (emptyCells s.board).card < fOut →
      (handleAiVsAi rng N s i fOut).isSome = true := by
  intro fOut
  induction fOut with
  | zero => intro s i _ hcard; omega
  | succ n ih =>
    intro s i hp hcard
    rw [handleAiVsAi]
    by_cases hg : s.gameOver = true
    · rw [if_pos hg]; rfl
    · rw [if_neg hg]
      by_cases hd : checkDraw s.board = true
      · rw [if_pos hd]; rfl
      · rw [if_neg hd]
        have hd' : checkDraw s.board = false := by
          revert hd; cases checkDraw s.board <;> simp
        obtain ⟨r, c, hrc⟩ := checkDraw_false_exists s.board hd'
        have hsome := aiMoveRandom_isSome_of_fair s.board s.currentPlayer
          rng N hfair i ⟨r, c, hrc⟩
        obtain ⟨⟨b2, i2⟩, haim⟩ := Option.isSome_iff_exists.mp hsome
        rw [haim]
        dsimp only
        obtain ⟨rr, cc, hrcc, hb2⟩ :=
          aiMoveRandom_some s.board s.currentPlayer rng N i b2 i2 haim
        by_cases hw : checkWin b2 s.currentPlayer = true
        · rw [if_pos hw]; rfl
        · rw [if_neg hw]
          have hcard2 : (emptyCells b2).card < n := by
            have h1 : 0 < (emptyCells s.board).card :=
              emptyCells_pos s.board rr cc hrcc
            have h2 : (emptyCells b2).card = (emptyCells s.board).card - 1 := by
              rw [hb2]; exact emptyCells_card_setCell s.board rr cc
                s.currentPlayer hp hrcc
            omega
          have hrec := ih { s with board := b2,
                                   currentPlayer := otherPlayer s.currentPlayer }
            i2 (otherPlayer_ne_empty s.currentPlayer) hcard2
          obtain ⟨⟨s3, ms3, i3⟩, hr⟩ := Option.isSome_iff_exists.mp hrec
          rw [hr]
          dsimp only
          rfl

theorem makeMove_keeps (s : GameState) (row col : Int) (r c : Fin 3)
    (h : s.board r c ≠ Cell.Empty) :
    (makeMove s row col).1.board r c = s.board r c := by
  unfold makeMove
  by_cases hv : MoveValid s row col
  · rw [if_pos hv]
    have he : s.board (idx row) (idx col) = Cell.Empty := hv.2.2.2.2.1
    dsimp only
    split
    · exact setCell_keeps s.board (idx row) (idx col) s.currentPlayer r c he h
    · split
      · exact setCell_keeps s.board (idx row) (idx col) s.currentPlayer r c he h
      · exact setCell_keeps s.board (idx row) (idx col) s.currentPlayer r c he h
  · rw [if_neg hv]

theorem aiMoveRandom_keeps (b : Board) (p : Cell) (rng : Nat → Fin 3 × Fin 3)
    (fuel i : Nat) (b2 : Board) (i2 : Nat)
    (h : aiMoveRandom b p rng i fuel = some (b2, i2)) (r c : Fin 3)
    (hne : b r c ≠ Cell.Empty) : b2 r c = b r c := by
  obtain ⟨rr, cc, hrc, hb2⟩ := aiMoveRandom_some b p rng fuel i b2 i2 h
  rw [hb2]
  exact setCell_keeps b rr cc p r c hrc hne

theorem handleAiVsAi_keeps (rng : Nat → Fin 3 × Fin 3) (fIn : Nat) :
    ∀ fOut s i s2 ms2 i2,
      handleAiVsAi rng fIn s i fOut = some (s2, ms2, i2) →
      ∀ r c, s.board r c ≠ Cell.Empty → s2.board r c = s.board r c := by
  intro fOut
  induction fOut with
  | zero =>
    intro s i s2 ms2 i2 h r c hne
    rw [handleAiVsAi] at h
    split at h
    · simp only [Option.some.injEq, Prod.mk.injEq] at h
      obtain ⟨rfl, rfl, rfl⟩ := h
      rfl
    · exact absurd h (fun hc => nomatch hc)
  | succ n ih =>
    intro s i s2 ms2 i2 h r c hne
    rw [handleAiVsAi] at h
    by_cases hg : s.gameOver = true
    · rw [if_pos hg] at h
      simp only [Option.some.injEq, Prod.mk.injEq] at h
      obtain ⟨rfl, rfl, rfl⟩ := h
      rfl
    · rw [if_neg hg] at h
      by_cases hd : checkDraw s.board = true
      · rw [if_pos hd] at h
        simp only [Option.some.injEq, Prod.mk.injEq] at h
        obtain ⟨rfl, rfl, rfl⟩ := h
        rfl
      · rw [if_neg hd] at h
        cases haim : aiMoveRandom s.board s.currentPlayer rng i fIn with
        | none => rw [haim] at h; exact absurd h (fun hc => nomatch hc)
        | some p2 =>
          obtain ⟨b2, i2'⟩ := p2
          rw [haim] at h
          dsimp only at h
          have hkeep : b2 r c = s.board r c :=
            aiMoveRandom_keeps s.board s.currentPlayer rng fIn i b2 i2' haim
              r c hne
          by_cases hw : checkWin b2 s.currentPlayer = true
          · rw [if_pos hw] at h
            simp only [Option.some.injEq, Prod.mk.injEq] at h
            obtain ⟨rfl, rfl, rfl⟩ := h
            exact hkeep
          · rw [if_neg hw] at h
            cases hrec : handleAiVsAi rng fIn
                { s with board := b2,
                         currentPlayer := otherPlayer s.currentPlayer } i2' n with
            | none => rw [hrec] at h; exact absurd h (fun hc => nomatch hc)
            | some p3 =>
              obtain ⟨s3, ms3, i3⟩ := p3
              rw [hrec] at h
              dsimp only at h
              simp only [Option.some.injEq, Prod.mk.injEq] at h
              obtain ⟨rfl, rfl, rfl⟩ := h
              have hne2 : b2 r c ≠ Cell.Empty := by
                rw [hkeep]; exact hne
              have h2 : s3.board r c = b2 r c :=
                ih { s with board := b2,
                            currentPlayer := otherPlayer s.currentPlayer }
                  i2' s3 ms3 i3 hrec r c hne2
              rw [h2]
              exact hkeep

theorem afterCommand_keeps (rng : Nat → Fin 3 × Fin 3)
    (fIn fOut : Nat) (s : GameState) (i : Nat) (ms : List Msg)
    (s2 : GameState) (ms2 : List Msg) (i2 : Nat)
    (h : afterCommand rng fIn fOut s i ms = some (s2, ms2, i2))
    (r c : Fin 3) (hne : s.board r c ≠ Cell.Empty) :
    s2.board r c = s.board r c := by
  unfold afterCommand at h
  by_cases h1 : s.gameMode = 1 ∧ s.gameOver = false ∧ s.currentPlayer = Cell.O
  · rw [if_pos h1] at h
    cases haim : aiMoveRandom s.board s.currentPlayer rng i fIn with
    | none => rw [haim] at h; exact absurd h (fun hc => nomatch hc)
    | some p2 =>
      obtain ⟨b2, i2'⟩ := p2
      rw [haim] at h
      dsimp only at h
      have hkeep : b2 r c = s.board r c :=
        aiMoveRandom_keeps s.board s.currentPlayer rng fIn i b2 i2' haim r c hne
      by_cases hw : checkWin b2 s.currentPlayer = true
      · rw [if_pos hw] at h
        simp only [Option.some.injEq, Prod.mk.injEq] at h
        obtain ⟨rfl, rfl, rfl⟩ := h
        exact hkeep
      · rw [if_neg hw] at h
        by_cases hd : checkDraw b2 = true
        · rw [if_pos hd] at h
          simp only [Option.some.injEq, Prod.mk.injEq] at h
          obtain ⟨rfl, rfl, rfl⟩ := h
          exact hkeep
        · rw [if_neg hd] at h
          simp only [Option.some.injEq, Prod.mk.injEq] at h
          obtain ⟨rfl, rfl, rfl⟩ := h
          exact hkeep
  · rw [if_neg h1] at h
    by_cases h2 : s.gameMode = 2 ∧ s.gameOver = false
    · rw [if_pos h2] at h
      cases hrec : handleAiVsAi rng fIn s i fOut with
      | none => rw [hrec] at h; exact absurd h (fun hc => nomatch hc)
      | some p3 =>
        obtain ⟨s3, ms3, i3⟩ := p3
        rw [hrec] at h
        dsimp only at h
        simp only [Option.some.injEq, Prod.mk.injEq] at h
        obtain ⟨rfl, rfl, rfl⟩ := h
        exact handleAiVsAi_keeps rng fIn fOut s i s3 ms3 i3 hrec r c hne
    · rw [if_neg h2] at h
      simp only [Option.some.injEq, Prod.mk.injEq] at h
      obtain ⟨rfl, rfl, rfl⟩ := h
      rfl

theorem setCell_same (b : Board) (r c : Fin 3) (v : Cell) :
    setCell b r c v r c = v := by
  unfold setCell
  rw [if_pos ⟨rfl, rfl⟩]

/-! ## Claim theorems -/

/-- C3: for every board and every player, `checkWin` is true iff at
least one of the 8 winning lines (3 rows, 3 columns, 2 diagonals) is
fully occupied by that player. -/
theorem claim_c3_checkWin (b : Board) (p : Cell) :
    checkWin b p = true ↔ WinsSpec b p := by
  unfold checkWin WinsSpec winLines
  simp only [Bool.or_eq_true, Bool.and_eq_true, beq_iff_eq,
    List.exists_mem_cons_iff, List.forall_mem_cons, List.forall_mem_singleton,
    List.not_mem_nil, false_and, exists_false, or_false, false_implies,
    implies_true, and_true, or_assoc, and_assoc]
  constructor
  · rintro (h | h | h | h | h | h | h | h)
    · exact Or.inl h
    · exact Or.inr (Or.inr (Or.inr (Or.inl h)))
    · exact Or.inr (Or.inl h)
    · exact Or.inr (Or.inr (Or.inr (Or.inr (Or.inl h))))
    · exact Or.inr (Or.inr (Or.inl h))
    · exact Or.inr (Or.inr (Or.inr (Or.inr (Or.inr (Or.inl h)))))
    · exact Or.inr (Or.inr (Or.inr (Or.inr (Or.inr (Or.inr (Or.inl h))))))
    · exact Or.inr (Or.inr (Or.inr (Or.inr (Or.inr (Or.inr (Or.inr h))))))
  · rintro (h | h | h | h | h | h | h | h)
    · exact Or.inl h
    · exact Or.inr (Or.inr (Or.inl h))
    · exact Or.inr (Or.inr (Or.inr (Or.inr (Or.inl h))))
    · exact Or.inr (Or.inl h)
    · exact Or.inr (Or.inr (Or.inr (Or.inl h)))
    · exact Or.inr (Or.inr (Or.inr (Or.inr (Or.inr (Or.inl h)))))
    · exact Or.inr (Or.inr (Or.inr (Or.inr (Or.inr (Or.inr (Or.inl h))))))
    · exact Or.inr (Or.inr (Or.inr (Or.inr (Or.inr (Or.inr (Or.inr h))))))

/-- C2 counterexample board: full, with a winning top row for X. -/
def fullWinBoard : Board :=
  ![![Cell.X, Cell.X, Cell.X],
    ![Cell.O, Cell.O, Cell.X],
    ![Cell.X, Cell.O, Cell.O]]

/-- C2 is false as stated: on a full board containing a winning line,
`checkDraw` still returns true although `checkWin` holds for X, so
`checkDraw` is not equivalent to "full and no winner". -/
theorem claim_c2_counterexample :
    checkDraw fullWinBoard = true ∧ checkWin fullWinBoard Cell.X = true := by
  constructor <;> decide

/-- C2 amended: `checkDraw` returns true iff all 9 cells are non-Empty;
it performs no `checkWin` test itself (callers must check wins first). -/
theorem claim_c2_checkDraw (b : Board) :
    checkDraw b = true ↔ ∀ i j, b i j ≠ Cell.Empty :=
  checkDraw_iff b

/-- C1: `makeMove(row, col)` succeeds (returns true and writes the
current player into the target cell) iff the indices are in range, the
target cell is Empty, and the game is not over; in every other case it
returns false, leaves the whole state unchanged, and the MOVE branch of
the protocol handler emits the `"Invalid move."` error message. -/
theorem claim_c1_makeMove (s : GameState) (row col : Int) :
    ((makeMove s row col).2.1 = true ↔ MoveValid s row col)
    ∧ (MoveValid s row col →
        (makeMove s row col).1.board (idx row) (idx col) = s.currentPlayer)
    ∧ (¬ MoveValid s row col →
        (makeMove s row col).1 = s ∧ (makeMove s row col).2.1 = false ∧
        dispatchCommand s (Command.move row col) =
          (s, [Msg.errorMsg ("Invalid move.")])) := by
  by_cases hv : MoveValid s row col
  · refine ⟨⟨fun _ => hv, fun _ => ?_⟩, fun _ => ?_, fun hc => absurd hv hc⟩
    · unfold makeMove
      rw [if_pos hv]
      dsimp only
      split
      · rfl
      · split <;> rfl
    · unfold makeMove
      rw [if_pos hv]
      dsimp only
      split
      · exact setCell_same s.board (idx row) (idx col) s.currentPlayer
      · split
        · exact setCell_same s.board (idx row) (idx col) s.currentPlayer
        · exact setCell_same s.board (idx row) (idx col) s.currentPlayer
  · have hm : makeMove s row col = (s, false, []) := by
      unfold makeMove; rw [if_neg hv]
    refine ⟨⟨fun ht => ?_, fun hc => absurd hc hv⟩, fun hc => absurd hc hv,
      fun _ => ⟨by rw [hm], by rw [hm], ?_⟩⟩
    · rw [hm] at ht
      exact absurd ht (fun hc => nomatch hc)
    · unfold dispatchCommand
      dsimp only
      rw [hm]
      rfl

/-- C1 witness: on the initial state, the move at `(0, 0)` is valid and
writes X into the target cell. -/
theorem claim_c1_witness :
    MoveValid initialState 0 0 ∧
    (makeMove initialState 0 0).1.board (idx 0) (idx 0)
      = initialState.currentPlayer :=
  ⟨by decide, (claim_c1_makeMove initialState 0 0).2.1 (by decide)⟩

/-- Board with only the corner `(0,0)` occupied; eight cells remain
empty. -/
def stuckBoard : Board :=
  ![![Cell.X, Cell.Empty, Cell.Empty],
    ![Cell.Empty, Cell.Empty, Cell.Empty],
    ![Cell.Empty, Cell.Empty, Cell.Empty]]

/-- The (unfair) random stream that proposes the corner `(0,0)`
forever. -/
def rngCorner : Nat → Fin 3 × Fin 3 := fun _ => (0, 0)

theorem aiMoveRandom_corner_stuck (p : Cell) :
    ∀ fuel i, aiMoveRandom stuckBoard p rngCorner i fuel = none := by
  intro fuel
  induction fuel with
  | zero => intro i; rfl
  | succ n ih =>
    intro i
    rw [aiMoveRandom]
    have hx : stuckBoard (rngCorner i).1 (rngCorner i).2 = Cell.X := rfl
    rw [if_neg (fun hc => Cell.noConfusion (hx.symm.trans hc))]
    exact ih (i + 1)

/-- C6 is false as stated: on a board with eight empty cells, the
retry loop spins forever when the random stream never proposes an
empty cell, so termination does not hold for every random stream. -/
theorem claim_c6_counterexample :
    (∃ r c, stuckBoard r c = Cell.Empty) ∧
    ¬ ∃ fuel b2 i2,
        aiMoveRandom stuckBoard Cell.O rngCorner 0 fuel = some (b2, i2) := by
  refine ⟨⟨0, 1, by decide⟩, ?_⟩
  rintro ⟨fuel, b2, i2, h⟩
  rw [aiMoveRandom_corner_stuck Cell.O fuel 0] at h
  exact absurd h (fun hc => nomatch hc)

/-- C6 amended: `aiMoveRandom` terminates whenever the random stream
eventually proposes an empty cell of the board (which a fair random
source does with probability one when at least one Empty cell exists,
including when exactly one remains), and on termination it has occupied
exactly one previously Empty cell with the given player. -/
theorem claim_c6_aiMoveRandom (b : Board) (p : Cell)
    (rng : Nat → Fin 3 × Fin 3) (i : Nat)
    (h : ∃ j, i ≤ j ∧ b (rng j).1 (rng j).2 = Cell.Empty) :
    ∃ fuel b2 i2, aiMoveRandom b p rng i fuel = some (b2, i2) ∧
      ∃ r c, b r c = Cell.Empty ∧ b2 = setCell b r c p := by
  obtain ⟨j, hij, hj⟩ := h
  have hs := aiMoveRandom_isSome b p rng (j - i + 1) i ⟨j, hij, by omega, hj⟩
  obtain ⟨⟨b2, i2⟩, heq⟩ := Option.isSome_iff_exists.mp hs
  exact ⟨j - i + 1, b2, i2, heq,
    aiMoveRandom_some b p rng (j - i + 1) i b2 i2 heq⟩

/-- Board with exactly one Empty cell, the centre. -/
def oneHoleBoard : Board :=
  ![![Cell.X, Cell.O, Cell.X],
    ![Cell.O, Cell.Empty, Cell.O],
    ![Cell.X, Cell.O, Cell.X]]

/-- C6 witness: on a board with exactly one Empty cell (the centre) and
the sweeping stream, the retry loop terminates and fills the centre. -/
theorem claim_c6_witness :
    (∃ j, 0 ≤ j ∧ oneHoleBoard (rngSweep j).1 (rngSweep j).2 = Cell.Empty) ∧
    ∃ fuel b2 i2, aiMoveRandom oneHoleBoard Cell.O rngSweep 0 fuel
        = some (b2, i2) ∧
      ∃ r c, oneHoleBoard r c = Cell.Empty ∧ b2 = setCell oneHoleBoard r c Cell.O :=
  ⟨⟨4, Nat.zero_le 4, by decide⟩,
   claim_c6_aiMoveRandom oneHoleBoard Cell.O rngSweep 0
     ⟨4, Nat.zero_le 4, by decide⟩⟩

theorem rngSweep_fair : WindowFair rngSweep 9 := by
  intro i rc
  obtain ⟨⟨a, ha⟩, ⟨bb, hb⟩⟩ := rc
  refine ⟨i + ((3 * a + bb + 9 - i % 9) % 9), by omega, by omega, ?_⟩
  unfold rngSweep
  have h1 : (i + ((3 * a + bb + 9 - i % 9) % 9)) / 3 % 3 = a := by omega
  have h2 : (i + ((3 * a + bb + 9 - i % 9) % 9)) % 3 = bb := by omega
  refine Prod.ext ?_ ?_
  · exact Fin.ext h1
  · exact Fin.ext h2

/-- C5: in AIvAI autoplay, whenever the loop returns from a
not-yet-over state it does so with `gameOver = true` and its final
message a `win_status` (a winner or the draw text); a full board is
reported as a draw immediately; and for a fair random stream the loop
does terminate. -/
theorem claim_c5_aivai (rng : Nat → Fin 3 × Fin 3) (s : GameState) (i : Nat)
    (hg : s.gameOver = false)
    (hp : s.currentPlayer = Cell.X ∨ s.currentPlayer = Cell.O) :
    (∀ fIn fOut s2 ms2 i2,
        handleAiVsAi rng fIn s i fOut = some (s2, ms2, i2) →
        s2.gameOver = true ∧
          ∃ m, ms2.getLast? = some (Msg.winStatus m) ∧
            (m = drawMsg ∨ m = winMsg Cell.X ∨ m = winMsg Cell.O))
    ∧ (∀ fIn, checkDraw s.board = true →
        handleAiVsAi rng fIn s i 1 =
          some ({ s with gameOver := true }, [Msg.winStatus drawMsg], i))
    ∧ (∀ N, WindowFair rng N →
        ∃ fOut, (handleAiVsAi rng N s i fOut).isSome = true) := by
  refine ⟨fun fIn fOut s2 ms2 i2 h =>
      handleAiVsAi_exit rng fIn fOut s i s2 ms2 i2 hg hp h,
    fun fIn hd => ?_, fun N hfair => ?_⟩
  · rw [handleAiVsAi, if_neg (by rw [hg]; exact fun hc => nomatch hc),
      if_pos hd]
  · refine ⟨(emptyCells s.board).card + 1,
      handleAiVsAi_isSome rng N hfair _ s i ?_ (Nat.lt_succ_self _)⟩
    rcases hp with hp | hp <;> rw [hp] <;> exact fun hc => nomatch hc

/-- C5 witness: from the freshly reset AIvAI state with the sweeping
stream, the autoplay loop terminates, ends with `gameOver = true` and
a final `win_status` message. -/
theorem claim_c5_witness :
    initialState.gameOver = false ∧
    (∃ fOut, (handleAiVsAi rngSweep 9 initialState 0 fOut).isSome = true) ∧
    ∀ s2 ms2 i2, handleAiVsAi rngSweep 9 initialState 0 12 = some (s2, ms2, i2) →
      s2.gameOver = true ∧
        ∃ m, ms2.getLast? = some (Msg.winStatus m) ∧
          (m = drawMsg ∨ m = winMsg Cell.X ∨ m = winMsg Cell.O) :=
  ⟨rfl,
   (claim_c5_aivai rngSweep initialState 0 rfl (Or.inl rfl)).2.2 9 rngSweep_fair,
   fun s2 ms2 i2 h =>
     (claim_c5_aivai rngSweep initialState 0 rfl (Or.inl rfl)).1 9 12 s2 ms2 i2 h⟩

theorem getLast?_append_one {α : Type} (l : List α) (y : α) :
    (l ++ [y]).getLast? = some y := by
  induction l with
  | nil => rfl
  | cons a l2 ih =>
    cases l2 with
    | nil => rfl
    | cons b l3 =>
      rw [List.cons_append, List.cons_append, List.getLast?_cons_cons,
        ← List.cons_append]
      exact ih

theorem getLast?_append_two {α : Type} (l : List α) (x y : α) :
    (l ++ [x, y]).getLast? = some y := by
  rw [show l ++ [x, y] = (l ++ [x]) ++ [y] from by simp,
    getLast?_append_one]

/-- The freshly reset PvAI state (right after a MODE=1 command). -/
def pvaiStart : GameState :=
  { board := fun _ _ => Cell.Empty, currentPlayer := Cell.X,
    gameOver := false, gameMode := 1 }

/-- The PvAI state in which X has just played `(0,0)` and O is to
move. -/
def pvaiMidState : GameState :=
  { board := setCell (fun _ _ => Cell.Empty) (idx 0) (idx 0) Cell.X
  , currentPlayer := Cell.O, gameOver := false, gameMode := 1 }

/-- The board after the AI answer proposed by the sweeping stream:
O placed at `(0,1)` next to the X at `(0,0)`. -/
def pvaiB2 : Board :=
  setCell pvaiMidState.board (rngSweep 1).1 (rngSweep 1).2 Cell.O

/-- The state after that exchange: turn handed back to X. -/
def pvaiAfter : GameState :=
  { board := pvaiB2, currentPlayer := Cell.X, gameOver := false,
    gameMode := 1 }

/-- C4: in PvAI mode, whenever after the dispatched command it is the turn of O
again and the game is not over, the handler performs exactly one random
move for O (occupying one previously Empty cell), checks win then draw
for O, and sets `currentPlayer` back to X unconditionally — also when
that move ended the game; and concretely, MODE=1 followed by a first
successful MOVE of X at `(0,0)` leaves exactly one X and one O on the
emitted board with `currentPlayer = X`. -/
theorem claim_c4_pvai_quirk (s : GameState) (rng : Nat → Fin 3 × Fin 3)
    (fIn fOut i : Nat) (ms : List Msg) (b2 : Board) (i2 : Nat)
    (hm : s.gameMode = 1) (hg : s.gameOver = false)
    (hp : s.currentPlayer = Cell.O)
    (hai : aiMoveRandom s.board s.currentPlayer rng i fIn = some (b2, i2)) :
    (∃ st ms2, afterCommand rng fIn fOut s i ms = some (st, ms2, i2)
      ∧ st.board = b2
      ∧ (∃ r c, s.board r c = Cell.Empty ∧ b2 = setCell s.board r c Cell.O)
      ∧ st.currentPlayer = Cell.X
      ∧ st.gameOver = (checkWin b2 Cell.O || checkDraw b2)
      ∧ ms2.getLast? = some (Msg.boardState b2))
    ∧ (∃ r1, processCommand rngSweep 9 12 initialState 0 (Command.mode 1)
          = some r1 ∧ r1.1 = pvaiStart ∧ r1.2.2 = 0)
    ∧ (∃ r2, processCommand rngSweep 9 12 pvaiStart 0 (Command.move 0 0)
          = some r2 ∧ r2.1 = pvaiAfter ∧ r2.2.2 = 2
        ∧ r2.2.1.getLast? = some (Msg.boardState pvaiAfter.board))
    ∧ countCell pvaiAfter.board Cell.X = 1
    ∧ countCell pvaiAfter.board Cell.O = 1
    ∧ pvaiAfter.currentPlayer = Cell.X := by
  refine ⟨?_, ⟨_, rfl, rfl, rfl⟩, ⟨_, rfl, rfl, rfl, rfl⟩,
    by decide, by decide, rfl⟩
  unfold afterCommand
  rw [hp] at hai ⊢
  rw [if_pos ⟨hm, hg, rfl⟩, hai]
  dsimp only
  obtain ⟨r, c, hrc, hb⟩ :=
    aiMoveRandom_some s.board Cell.O rng fIn i b2 i2 hai
  by_cases hw : checkWin b2 Cell.O = true
  · rw [if_pos hw]
    exact ⟨_, _, rfl, rfl, ⟨r, c, hrc, hb⟩, rfl, by rw [hw]; rfl,
      getLast?_append_two ms _ _⟩
  · have hwf : checkWin b2 Cell.O = false := by
      revert hw; cases checkWin b2 Cell.O <;> simp
    rw [if_neg hw]
    by_cases hd : checkDraw b2 = true
    · rw [if_pos hd]
      exact ⟨_, _, rfl, rfl, ⟨r, c, hrc, hb⟩, rfl, by rw [hwf, hd]; rfl,
        getLast?_append_two ms _ _⟩
    · have hdf : checkDraw b2 = false := by
        revert hd; cases checkDraw b2 <;> simp
      rw [if_neg hd]
      exact ⟨_, _, rfl, rfl, ⟨r, c, hrc, hb⟩, rfl,
        by rw [hg, hwf, hdf]; rfl, getLast?_append_one ms _⟩

/-- C4 witness: the quirk theorem applied to the concrete state in
which X has just played `(0,0)` and O is to move. -/
theorem claim_c4_witness :
    (pvaiMidState.gameMode = 1 ∧ pvaiMidState.gameOver = false
      ∧ pvaiMidState.currentPlayer = Cell.O
      ∧ aiMoveRandom pvaiMidState.board pvaiMidState.currentPlayer rngSweep 0 9
          = some (pvaiB2, 2)) ∧
    ∃ st ms2, afterCommand rngSweep 9 12 pvaiMidState 0 [] = some (st, ms2, 2)
      ∧ st.board = pvaiB2
      ∧ (∃ r c, pvaiMidState.board r c = Cell.Empty
          ∧ pvaiB2 = setCell pvaiMidState.board r c Cell.O)
      ∧ st.currentPlayer = Cell.X
      ∧ st.gameOver = (checkWin pvaiB2 Cell.O || checkDraw pvaiB2)
      ∧ ms2.getLast? = some (Msg.boardState pvaiB2) :=
  ⟨⟨rfl, rfl, rfl, rfl⟩,
   (claim_c4_pvai_quirk pvaiMidState rngSweep 9 12 0 [] pvaiB2 2
     rfl rfl rfl rfl).1⟩

/-- The running AIvAI state: empty board, X to move, mode 2. -/
def aivaiStart : GameState :=
  { board := fun _ _ => Cell.Empty, currentPlayer := Cell.X,
    gameOver := false, gameMode := 2 }

/-- C8 is false as stated in AIvAI mode: two consecutive RESET
commands processed with the sweeping stream end in different game
states, because the RESET handler falls through to the AI-trigger
block and each RESET starts a fresh autoplay. -/
theorem claim_c8_counterexample :
    ∃ r1 r2,
      processCommand rngSweep 9 12 aivaiStart 0 Command.reset = some r1
      ∧ processCommand rngSweep 9 12 r1.1 r1.2.2 Command.reset = some r2
      ∧ r1.1 ≠ r2.1 := by
  refine ⟨_, _, rfl, rfl, ?_⟩
  decide

/-- C8 amended: `initializeBoard` always yields the empty board with
`currentPlayer = X` and `gameOver = false` (with `gameMode`
preserved), and whenever the stored mode is not 2 (AIvAI) two RESET
commands in a row produce the identical post-state both times; in
AIvAI mode each RESET additionally triggers an autoplay whose random
outcome can differ between the two RESETs. -/
theorem claim_c8_reset (s : GameState) (rng : Nat → Fin 3 × Fin 3)
    (fIn fOut i : Nat) (hm2 : s.gameMode ≠ 2) :
    initializeBoard s
      = { board := (fun _ _ => Cell.Empty), currentPlayer := Cell.X,
          gameOver := false, gameMode := s.gameMode }
    ∧ ∃ ms1, processCommand rng fIn fOut s i Command.reset
          = some (initializeBoard s, ms1, i)
        ∧ processCommand rng fIn fOut (initializeBoard s) i Command.reset
          = some (initializeBoard s, ms1, i) := by
  have hng : ¬ ((initializeBoard s).gameMode = 1
      ∧ (initializeBoard s).gameOver = false
      ∧ (initializeBoard s).currentPlayer = Cell.O) := by
    rintro ⟨-, -, hc⟩
    exact Cell.noConfusion hc
  have hn2 : ¬ ((initializeBoard s).gameMode = 2
      ∧ (initializeBoard s).gameOver = false) := by
    rintro ⟨hc, -⟩
    exact hm2 hc
  have h1 : processCommand rng fIn fOut s i Command.reset
      = some (initializeBoard s,
          [Msg.gameStatus ("Game reset."),
           Msg.boardState (initializeBoard s).board], i) := by
    unfold processCommand dispatchCommand
    dsimp only
    unfold afterCommand
    rw [if_neg hng, if_neg hn2]
  have h2 : processCommand rng fIn fOut (initializeBoard s) i Command.reset
      = some (initializeBoard s,
          [Msg.gameStatus ("Game reset."),
           Msg.boardState (initializeBoard s).board], i) := by
    unfold processCommand dispatchCommand
    dsimp only
    rw [show initializeBoard (initializeBoard s) = initializeBoard s from rfl]
    unfold afterCommand
    rw [if_neg hng, if_neg hn2]
  exact ⟨rfl, _, h1, h2⟩

/-- C8 witness: in PvP mode the two RESETs land in the same state. -/
theorem claim_c8_witness :
    initialState.gameMode ≠ 2 ∧
    ∃ ms1, processCommand rngSweep 9 12 initialState 0 Command.reset
          = some (initializeBoard initialState, ms1, 0)
        ∧ processCommand rngSweep 9 12 (initializeBoard initialState) 0
            Command.reset = some (initializeBoard initialState, ms1, 0) :=
  ⟨by decide,
   (claim_c8_reset initialState rngSweep 9 12 0 (by decide)).2⟩

/-- C9: a MODE command stores its payload verbatim, without any
validation; and whenever the stored mode is neither 1 nor 2 the
AI-trigger block does nothing, so processing any command is exactly
its dispatch — the PvP behaviour. -/
theorem claim_c9_mode (s : GameState) (m : Int) (rng : Nat → Fin 3 × Fin 3)
    (fIn fOut i : Nat) (ms : List Msg) (cmd : Command)
    (h1 : s.gameMode ≠ 1) (h2 : s.gameMode ≠ 2) :
    (dispatchCommand s (Command.mode m)).1.gameMode = m
    ∧ afterCommand rng fIn fOut s i ms = some (s, ms, i)
    ∧ ((dispatchCommand s cmd).1.gameMode ≠ 1 →
        (dispatchCommand s cmd).1.gameMode ≠ 2 →
        processCommand rng fIn fOut s i cmd
          = some ((dispatchCommand s cmd).1, (dispatchCommand s cmd).2, i)) := by
  refine ⟨rfl, ?_, fun hd1 hd2 => ?_⟩
  · unfold afterCommand
    rw [if_neg (fun hc => h1 hc.1), if_neg (fun hc => h2 hc.1)]
  · unfold processCommand
    unfold afterCommand
    rw [if_neg (fun hc => hd1 hc.1), if_neg (fun hc => hd2 hc.1)]

/-- C9 witness: MODE=7 is stored verbatim on the initial state, whose
mode 0 triggers no AI logic. -/
theorem claim_c9_witness :
    (initialState.gameMode ≠ 1 ∧ initialState.gameMode ≠ 2) ∧
    ((dispatchCommand initialState (Command.mode 7)).1.gameMode = 7
    ∧ afterCommand rngSweep 9 12 initialState 0 [] = some (initialState, [], 0)
    ∧ ((dispatchCommand initialState (Command.move 0 0)).1.gameMode ≠ 1 →
        (dispatchCommand initialState (Command.move 0 0)).1.gameMode ≠ 2 →
        processCommand rngSweep 9 12 initialState 0 (Command.move 0 0)
          = some ((dispatchCommand initialState (Command.move 0 0)).1,
              (dispatchCommand initialState (Command.move 0 0)).2, 0))) :=
  ⟨⟨by decide, by decide⟩,
   claim_c9_mode initialState 7 rngSweep 9 12 0 [] (Command.move 0 0)
     (by decide) (by decide)⟩

/-- C10: the JSON integer extraction defaults to 0 when the field is
missing or holds no integer, so the bare MOVE command parses as a move
at `(0,0)`, which on the initial state succeeds and occupies cell
`(0,0)` instead of being rejected as malformed. -/
theorem claim_c10_defaults (doc : List (String × JVal)) (k : String)
    (h : ∀ n, doc.lookup k ≠ some (JVal.jint n)) :
    getInt doc k = 0
    ∧ parseCommand [("command", JVal.jstr ("MOVE"))] = some (Command.move 0 0)
    ∧ (makeMove initialState 0 0).2.1 = true
    ∧ (makeMove initialState 0 0).1.board (idx 0) (idx 0) = Cell.X := by
  refine ⟨?_, rfl, by decide, by decide⟩
  unfold getInt
  cases hl : doc.lookup k with
  | none => rfl
  | some v =>
    cases v with
    | jint n => exact absurd hl (h n)
    | jstr s2 => rfl
    | jnull => rfl

/-- C10 witness: the bare MOVE document has no integer `row` field and
is parsed as a move at `(0,0)`. -/
theorem claim_c10_witness :
    (∀ n, ([("command", JVal.jstr ("MOVE"))]).lookup ("row")
        ≠ some (JVal.jint n))
    ∧ getInt [("command", JVal.jstr ("MOVE"))] ("row") = 0
    ∧ parseCommand [("command", JVal.jstr ("MOVE"))]
        = some (Command.move 0 0) :=
  ⟨(fun _n hc => nomatch hc),
   (claim_c10_defaults [("command", JVal.jstr ("MOVE"))] ("row")
     (fun _n hc => nomatch hc)).1,
   (claim_c10_defaults [("command", JVal.jstr ("MOVE"))] ("row")
     (fun _n hc => nomatch hc)).2.1⟩

theorem dispatchCommand_move_fst (s : GameState) (row col : Int) :
    (dispatchCommand s (Command.move row col)).1 = (makeMove s row col).1 := by
  unfold dispatchCommand
  dsimp only
  split <;> rfl

/-- C7: a cell that holds X or O is never changed by `makeMove`, by
`aiMoveRandom`, by `handleAiVsAi`, or by the processing of a MOVE
command — only the full reset clears cells. -/
theorem claim_c7_cells_persist :
    (∀ s row col r c, s.board r c ≠ Cell.Empty →
      (makeMove s row col).1.board r c = s.board r c)
    ∧ (∀ b p rng i fuel b2 i2 r c,
        aiMoveRandom b p rng i fuel = some (b2, i2) →
        b r c ≠ Cell.Empty → b2 r c = b r c)
    ∧ (∀ rng fIn fOut s i s2 ms2 i2 r c,
        handleAiVsAi rng fIn s i fOut = some (s2, ms2, i2) →
        s.board r c ≠ Cell.Empty → s2.board r c = s.board r c)
    ∧ (∀ rng fIn fOut s i row col s2 ms2 i2 r c,
        processCommand rng fIn fOut s i (Command.move row col)
          = some (s2, ms2, i2) →
        s.board r c ≠ Cell.Empty → s2.board r c = s.board r c) := by
  refine ⟨fun s row col r c h => makeMove_keeps s row col r c h,
    fun b p rng i fuel b2 i2 r c h hne =>
      aiMoveRandom_keeps b p rng fuel i b2 i2 h r c hne,
    fun rng fIn fOut s i s2 ms2 i2 r c h hne =>
      handleAiVsAi_keeps rng fIn fOut s i s2 ms2 i2 h r c hne,
    ?_⟩
  intro rng fIn fOut s i row col s2 ms2 i2 r c h hne
  unfold processCommand at h
  dsimp only at h
  rw [dispatchCommand_move_fst s row col] at h
  have hk1 : (makeMove s row col).1.board r c = s.board r c :=
    makeMove_keeps s row col r c hne
  have hk2 : s2.board r c = (makeMove s row col).1.board r c :=
    afterCommand_keeps rng fIn fOut (makeMove s row col).1 i
      (dispatchCommand s (Command.move row col)).2 s2 ms2 i2 h r c
      (by rw [hk1]; exact hne)
  rw [hk2, hk1]

/-- C7 witness: the X already at `(0,0)` survives a further move at
`(1,1)`. -/
theorem claim_c7_witness :
    pvaiMidState.board 0 0 ≠ Cell.Empty ∧
    (makeMove pvaiMidState 1 1).1.board 0 0 = pvaiMidState.board 0 0 :=
  ⟨by decide,
   claim_c7_cells_persist.1 pvaiMidState 1 1 0 0 (by decide)⟩

/-- The AIvAI state over the one-corner board, game not over. -/
def aivaiStuck : GameState :=
  { board := stuckBoard, currentPlayer := Cell.X, gameOver := false,
    gameMode := 2 }

/-- C5 is false as stated: the autoplay loop need not reach a terminal
state — with a random stream that never proposes an empty cell, the
inner retry loop of `aiMoveRandom` spins forever and `handleAiVsAi`
never returns. -/
theorem claim_c5_counterexample :
    aivaiStuck.gameOver = false ∧
    ¬ ∃ fIn fOut res, handleAiVsAi rngCorner fIn aivaiStuck 0 fOut
        = some res := by
  refine ⟨rfl, ?_⟩
  rintro ⟨fIn, fOut, res, h⟩
  cases fOut with
  | zero =>
    rw [handleAiVsAi, if_neg (fun hc => Bool.noConfusion hc)] at h
    exact absurd h (fun hc => nomatch hc)
  | succ n =>
    rw [handleAiVsAi, if_neg (fun hc => Bool.noConfusion hc),
      if_neg (by decide : ¬ checkDraw aivaiStuck.board = true),
      show aiMoveRandom aivaiStuck.board aivaiStuck.currentPlayer rngCorner 0
          fIn = none
        from aiMoveRandom_corner_stuck aivaiStuck.currentPlayer fIn 0] at h
    exact absurd h (fun hc => nomatch hc)
